import Mathlib

/-!
Shallow embedding of the resilience primitives of `lanai-infraestructure`:
the circuit breaker (`src/resilience/mod.rs`), the saga orchestrator
(`src/saga/mod.rs`) and the sliding-window rate limiter
(`src/rate_limit/mod.rs`).

Time is modelled with natural-number instants (for the breaker, mirroring
`Instant` and `elapsed()`, which never yields a negative duration) and with
integer millisecond timestamps (for the rate limiter, mirroring
`chrono::Utc::now().timestamp_millis()`).  The asynchronous wrapped
operation of the breaker is modelled by its result, an `Except ε α`
(Rust `Result<T, E>`), together with an `invoked` flag recording whether
the operation was run at all.
-/

namespace LanaiInfra

/-- Rust `CircuitState` from `src/resilience/mod.rs`. -/
inductive CircuitState where
  | Closed
  | Open
  | HalfOpen
deriving DecidableEq, Repr

/-- Rust `CircuitBreakerOutcome<E>` from `src/resilience/mod.rs`: either the
breaker blocked the call, or the wrapped operation returned an error. -/
inductive CircuitBreakerOutcome (ε : Type) where
  | CircuitOpen
  | OperationError (e : ε)
deriving DecidableEq, Repr

/-- The mutable fields of `CircuitBreaker` (the per-field mutexes of the
source collapse to plain fields in this sequential model). -/
structure CircuitBreaker where
  state : CircuitState
  failure_threshold : Nat
  failure_count : Nat
  success_threshold : Nat
  success_count : Nat
  reset_timeout : Nat
  last_failure_time : Option Nat
deriving DecidableEq, Repr

/-- Constructor `CircuitBreaker::new`: `Closed`, zero counters, default
`success_threshold` of 2, no recorded failure time. -/
def CircuitBreaker.new (failure_threshold reset_timeout : Nat) : CircuitBreaker where
  state := .Closed
  failure_threshold := failure_threshold
  failure_count := 0
  success_threshold := 2
  success_count := 0
  reset_timeout := reset_timeout
  last_failure_time := none

/-- Builder `CircuitBreaker::with_success_threshold`. -/
def CircuitBreaker.with_success_threshold (cb : CircuitBreaker) (threshold : Nat) :
    CircuitBreaker :=
  { cb with success_threshold := threshold }

/-- The first block of `CircuitBreaker::call` (the Open → HalfOpen check):
`Sum.inl cb` means the call is rejected with `CircuitOpen`; `Sum.inr cb'`
means execution proceeds with the (possibly updated) breaker.  Note the
source falls through and executes the operation when the state is `Open`
but `last_failure_time` is `None`. -/
def CircuitBreaker.openPhase (cb : CircuitBreaker) (now : Nat) :
    Sum CircuitBreaker CircuitBreaker :=
  if cb.state = .Open then
    match cb.last_failure_time with
    | some instant =>
        if cb.reset_timeout ≤ now - instant then
          .inr { cb with state := .HalfOpen, success_count := 0 }
        else
          .inl cb
    | none => .inr cb
  else
    .inr cb

/-- The `match f().await` block of `CircuitBreaker::call`: bookkeeping after
the wrapped operation has produced `op`. -/
def CircuitBreaker.executePhase {ε α : Type} (cb : CircuitBreaker) (now : Nat)
    (op : Except ε α) : CircuitBreaker × Except (CircuitBreakerOutcome ε) α :=
  match op with
  | .ok res =>
      if cb.state = .HalfOpen then
        if cb.success_threshold ≤ cb.success_count + 1 then
          ({ cb with state := .Closed, failure_count := 0, success_count := 0 },
           .ok res)
        else
          ({ cb with success_count := cb.success_count + 1 }, .ok res)
      else if cb.state = .Closed then
        ({ cb with failure_count := 0 }, .ok res)
      else
        (cb, .ok res)
  | .error e =>
      if cb.state = .HalfOpen then
        ({ cb with failure_count := cb.failure_count + 1, state := .Open,
                   last_failure_time := some now },
         .error (.OperationError e))
      else if cb.failure_threshold ≤ cb.failure_count + 1 then
        ({ cb with failure_count := cb.failure_count + 1, state := .Open,
                   last_failure_time := some now },
         .error (.OperationError e))
      else
        ({ cb with failure_count := cb.failure_count + 1 },
         .error (.OperationError e))

/-- What one `CircuitBreaker::call` produces: the breaker afterwards, the
returned `CircuitBreakerResult`, and whether the wrapped operation ran. -/
structure CallResult (ε α : Type) where
  breaker : CircuitBreaker
  result : Except (CircuitBreakerOutcome ε) α
  invoked : Bool
deriving Repr

/-- Method `CircuitBreaker::call` at instant `now`, with the wrapped operation's
result `op` (only consumed when the operation is actually invoked). -/
def CircuitBreaker.call {ε α : Type} (cb : CircuitBreaker) (now : Nat)
    (op : Except ε α) : CallResult ε α :=
  match cb.openPhase now with
  | .inl rejected => { breaker := rejected, result := .error .CircuitOpen, invoked := false }
  | .inr ready =>
      let r := ready.executePhase now op
      { breaker := r.1, result := r.2, invoked := true }

/-- Method `CircuitBreaker::reset`: force `Closed` and zero both counters. -/
def CircuitBreaker.reset (cb : CircuitBreaker) : CircuitBreaker :=
  { cb with state := .Closed, failure_count := 0, success_count := 0 }

/-- The breaker after `k` calls whose wrapped operation fails, the `j`-th
call made at instant `ts j` with operation error `es j`. -/
def failCalls {ε : Type} (cb : CircuitBreaker) (ts : Nat → Nat) (es : Nat → ε) :
    Nat → CircuitBreaker
  | 0 => cb
  | k + 1 => ((failCalls cb ts es k).call (ts k) (Except.error (es k) : Except ε Unit)).breaker

/-- The breaker after `k` calls whose wrapped operation succeeds, the `j`-th
call made at instant `ts j` with result `vs j`. -/
def succCalls {α : Type} (cb : CircuitBreaker) (ts : Nat → Nat) (vs : Nat → α) :
    Nat → CircuitBreaker
  | 0 => cb
  | k + 1 => ((succCalls cb ts vs k).call (ts k) (Except.ok (vs k) : Except Unit α)).breaker

/-- Breakers reachable from construction (`new`, optionally
`with_success_threshold`) through any sequence of `call` and `reset`
operations.  The breaker after a `call` depends only on whether the wrapped
operation failed, so `Unit`-valued operations exhaust the behaviours. -/
inductive Reachable : CircuitBreaker → Prop where
  | new (ft rt : Nat) : Reachable (CircuitBreaker.new ft rt)
  | withThreshold {cb : CircuitBreaker} (st : Nat) :
      Reachable cb → Reachable (cb.with_success_threshold st)
  | call {cb : CircuitBreaker} (now : Nat) (op : Except Unit Unit) :
      Reachable cb → Reachable ((cb.call now op).breaker)
  | reset {cb : CircuitBreaker} : Reachable cb → Reachable cb.reset

/-! ## Saga orchestrator (`src/saga/mod.rs`) -/

/-- A `SagaStep` over context `C` and error `E`.  `execute` takes the
context by `&mut`, so it is modelled as returning the updated context
together with the optional error (the context may change even when the
step fails); `compensate` only mutates the context. -/
structure SagaStep (C E : Type) where
  execute : C → C × Option E
  compensate : C → C

/-- Observable invocation events of a saga run: `execute` of step `i`
(0-based insertion index) or `compensate` of step `i`. -/
inductive SagaEvent where
  | exec (i : Nat)
  | comp (i : Nat)
deriving DecidableEq, Repr

/-- Method `SagaOrchestrator::compensate`: compensate the given (already reversed)
executed steps in order, threading the shared mutable context; returns the
emitted events and the final context. -/
def compensateSteps {C E : Type} : List (Nat × SagaStep C E) → C → List SagaEvent × C
  | [], ctx => ([], ctx)
  | (j, s) :: rest, ctx =>
      let r := compensateSteps rest (s.compensate ctx)
      (SagaEvent.comp j :: r.1, r.2)

/-- The loop of `SagaOrchestrator::run`: `todo` are the remaining steps,
`i` the index of the next one, `executed` the successfully executed steps
in order (the `executed_steps` vector of the source).  On the first failing
`execute`, compensate `executed` in reverse against the context as left by
the failing step, and return that step's error. -/
def runLoop {C E : Type} :
    List (SagaStep C E) → Nat → List (Nat × SagaStep C E) → C →
      List SagaEvent × Except E C
  | [], _, _, ctx => ([], Except.ok ctx)
  | s :: rest, i, executed, ctx =>
      match s.execute ctx with
      | (ctx', none) =>
          let r := runLoop rest (i + 1) (executed ++ [(i, s)]) ctx'
          (SagaEvent.exec i :: r.1, r.2)
      | (ctx', some e) =>
          let r := compensateSteps executed.reverse ctx'
          (SagaEvent.exec i :: r.1, Except.error e)

/-- Rust `SagaOrchestrator`: an ordered list of steps (insertion order =
execution order). -/
structure SagaOrchestrator (C E : Type) where
  steps : List (SagaStep C E)

/-- Method `SagaOrchestrator::run`: execute the steps in order from a fresh
`executed_steps` list, returning the event trace together with Rust's
`Result<C, E>`. -/
def SagaOrchestrator.run {C E : Type} (o : SagaOrchestrator C E) (ctx : C) :
    List SagaEvent × Except E C :=
  runLoop o.steps 0 [] ctx

/-- Holds when `execute` of every listed step succeeds when run in order
from `ctx`, each against the context left by its predecessor. -/
def allSucceed {C E : Type} : List (SagaStep C E) → C → Prop
  | [], _ => True
  | s :: rest, ctx => (s.execute ctx).2 = none ∧ allSucceed rest (s.execute ctx).1

/-- The context after executing the listed steps in order from `ctx`. -/
def finalContext {C E : Type} : List (SagaStep C E) → C → C
  | [], ctx => ctx
  | s :: rest, ctx => finalContext (E := E) rest (s.execute ctx).1

/-! ## Rate limiter (`src/rate_limit/mod.rs`) -/

/-- One `InMemoryRateLimiter::is_allowed` check for a single key:
`history` is the stored timestamp list for that key, `now` the current
millisecond timestamp.  Entries with `ts > window_start` are retained
(`history.retain(|&ts| ts > window_start)`); if at least `limit` remain the
call is denied, otherwise `now` is pushed and the call allowed.  Returns
the stored history afterwards and the decision. -/
def InMemoryRateLimiter.is_allowed (history : List Int) (now : Int)
    (limit : Nat) (window_secs : Nat) : List Int × Bool :=
  let window_start : Int := now - (window_secs * 1000 : Nat)
  let cleaned := history.filter (fun ts => decide (window_start < ts))
  if limit ≤ cleaned.length then (cleaned, false)
  else (cleaned ++ [now], true)

/-- The per-key Redis sorted set `rate_limit:{key}`: its entries (member =
score = millisecond timestamp) and its time-to-live in seconds. -/
structure RedisZSet where
  entries : List Int
  expiry : Option Nat
deriving DecidableEq, Repr

/-- Method `RedisRateLimiter::is_allowed`.  The connection attempt and the
pipeline execution are explicit parameters (`Except.error` = the
corresponding Redis failure).  On a working connection and pipeline:
`ZREMRANGEBYSCORE key -inf window_start` removes every entry with score
`≤ window_start` (both Redis bounds are inclusive), `ZCOUNT key
window_start +inf` counts the remaining entries with score
`≥ window_start`; if that count reaches `limit` the call is denied,
otherwise `ZADD` inserts `now` and `EXPIRE` refreshes the time-to-live to
`window_secs`.  Either failure makes the check return `true` (fail open)
with the stored set untouched. -/
def RedisRateLimiter.is_allowed (conn : Except String Unit) (pipe : Except String Unit)
    (zset : RedisZSet) (now : Int) (limit : Nat) (window_secs : Nat) :
    RedisZSet × Bool :=
  match conn with
  | .error _ => (zset, true)
  | .ok _ =>
    match pipe with
    | .error _ => (zset, true)
    | .ok _ =>
      let window_start : Int := now - (window_secs * 1000 : Nat)
      let remaining := zset.entries.filter (fun ts => decide (window_start < ts))
      let count := remaining.countP (fun ts => decide (window_start ≤ ts))
      if limit ≤ count then ({ zset with entries := remaining }, false)
      else ({ entries := remaining ++ [now], expiry := some window_secs }, true)

/-- One in-memory check folded over `(stored history, decisions so far)`. -/
def checkStep (limit window_secs : Nat) (acc : List Int × List Bool) (t : Int) :
    List Int × List Bool :=
  let r := InMemoryRateLimiter.is_allowed acc.1 t limit window_secs
  (r.1, acc.2 ++ [r.2])

/-- A sequence of uncontended in-memory checks for one key starting from an
empty history: returns the stored history after all checks together with
the decision of each check in order. -/
def runChecks (times : List Int) (limit : Nat) (window_secs : Nat) :
    List Int × List Bool :=
  times.foldl (checkStep limit window_secs) ([], [])

/-! ## Circuit breaker lemmas -/

theorem openPhase_skip {cb : CircuitBreaker} (h : cb.state ≠ .Open) (now : Nat) :
    cb.openPhase now = .inr cb := by
  unfold CircuitBreaker.openPhase
  simp [h]

theorem openPhase_reject {cb : CircuitBreaker} {t now : Nat}
    (hs : cb.state = .Open) (hl : cb.last_failure_time = some t)
    (ht : now - t < cb.reset_timeout) : cb.openPhase now = .inl cb := by
  unfold CircuitBreaker.openPhase
  simp [hs, hl, Nat.not_le.mpr ht]

theorem openPhase_probe {cb : CircuitBreaker} {t now : Nat}
    (hs : cb.state = .Open) (hl : cb.last_failure_time = some t)
    (ht : cb.reset_timeout ≤ now - t) :
    cb.openPhase now = .inr { cb with state := .HalfOpen, success_count := 0 } := by
  unfold CircuitBreaker.openPhase
  simp [hs, hl, ht]

theorem call_reject {ε α : Type} {cb : CircuitBreaker} {now : Nat} (op : Except ε α)
    (h : cb.openPhase now = .inl cb) :
    cb.call now op = { breaker := cb, result := .error .CircuitOpen, invoked := false } := by
  unfold CircuitBreaker.call
  rw [h]

theorem call_proceed {ε α : Type} {cb cb' : CircuitBreaker} {now : Nat} (op : Except ε α)
    (h : cb.openPhase now = .inr cb') :
    cb.call now op
      = { breaker := (cb'.executePhase now op).1,
          result := (cb'.executePhase now op).2, invoked := true } := by
  unfold CircuitBreaker.call
  rw [h]

theorem call_closed_ok {ε α : Type} {cb : CircuitBreaker} (now : Nat) (v : α)
    (hs : cb.state = .Closed) :
    cb.call now (Except.ok v : Except ε α)
      = { breaker := { cb with failure_count := 0 }, result := .ok v, invoked := true } := by
  unfold CircuitBreaker.call CircuitBreaker.openPhase CircuitBreaker.executePhase
  simp [hs]

theorem call_closed_err_below {ε α : Type} {cb : CircuitBreaker} (now : Nat) (e : ε)
    (hs : cb.state = .Closed) (hlt : cb.failure_count + 1 < cb.failure_threshold) :
    cb.call now (Except.error e : Except ε α)
      = { breaker := { cb with failure_count := cb.failure_count + 1 },
          result := .error (.OperationError e), invoked := true } := by
  unfold CircuitBreaker.call CircuitBreaker.openPhase CircuitBreaker.executePhase
  simp [hs, Nat.not_le.mpr hlt]

theorem call_closed_err_reach {ε α : Type} {cb : CircuitBreaker} (now : Nat) (e : ε)
    (hs : cb.state = .Closed) (hge : cb.failure_threshold ≤ cb.failure_count + 1) :
    cb.call now (Except.error e : Except ε α)
      = { breaker :=
            { cb with
                failure_count := cb.failure_count + 1
                state := .Open
                last_failure_time := some now },
          result := .error (.OperationError e), invoked := true } := by
  unfold CircuitBreaker.call CircuitBreaker.openPhase CircuitBreaker.executePhase
  simp [hs, hge]

theorem call_halfopen_ok_below {ε α : Type} {cb : CircuitBreaker} (now : Nat) (v : α)
    (hs : cb.state = .HalfOpen) (hlt : cb.success_count + 1 < cb.success_threshold) :
    cb.call now (Except.ok v : Except ε α)
      = { breaker := { cb with success_count := cb.success_count + 1 },
          result := .ok v, invoked := true } := by
  unfold CircuitBreaker.call CircuitBreaker.openPhase CircuitBreaker.executePhase
  simp [hs, Nat.not_le.mpr hlt]

theorem call_halfopen_ok_reach {ε α : Type} {cb : CircuitBreaker} (now : Nat) (v : α)
    (hs : cb.state = .HalfOpen) (hge : cb.success_threshold ≤ cb.success_count + 1) :
    cb.call now (Except.ok v : Except ε α)
      = { breaker := { cb with state := .Closed, failure_count := 0, success_count := 0 },
          result := .ok v, invoked := true } := by
  unfold CircuitBreaker.call CircuitBreaker.openPhase CircuitBreaker.executePhase
  simp [hs, hge]

theorem call_halfopen_err {ε α : Type} {cb : CircuitBreaker} (now : Nat) (e : ε)
    (hs : cb.state = .HalfOpen) :
    cb.call now (Except.error e : Except ε α)
      = { breaker :=
            { cb with
                failure_count := cb.failure_count + 1
                state := .Open
                last_failure_time := some now },
          result := .error (.OperationError e), invoked := true } := by
  unfold CircuitBreaker.call CircuitBreaker.openPhase CircuitBreaker.executePhase
  simp [hs]

theorem failCalls_closed {ε : Type} (cb0 : CircuitBreaker) (ts : Nat → Nat) (es : Nat → ε)
    (hs : cb0.state = .Closed) (hfc : cb0.failure_count = 0) :
    ∀ k, k < cb0.failure_threshold →
      (failCalls cb0 ts es k).state = .Closed ∧
      (failCalls cb0 ts es k).failure_count = k ∧
      (failCalls cb0 ts es k).failure_threshold = cb0.failure_threshold := by
  intro k
  induction k with
  | zero => intro _; exact ⟨hs, hfc, rfl⟩
  | succ k ih =>
      intro hk
      obtain ⟨h1, h2, h3⟩ := ih (Nat.lt_of_succ_lt hk)
      have hlt : (failCalls cb0 ts es k).failure_count + 1
          < (failCalls cb0 ts es k).failure_threshold := by
        rw [h2, h3]; exact hk
      rw [failCalls, call_closed_err_below (ts k) (es k) h1 hlt]
      exact ⟨h1, by simp [h2], h3⟩

/-- C1: from a breaker in `Closed` with `failure_count` 0, any sequence of
`failure_threshold` consecutive calls whose wrapped operation fails leaves
the state `Closed` after every call but the last, leaves it `Open` after
the last, and every one of those calls returns the error-carrying outcome
(`CircuitBreakerOutcome::OperationError`, the spec's `OperationFailed`)
with the operation's own error inside. -/
theorem c1_threshold_failures_open {ε : Type} (cb0 : CircuitBreaker)
    (ts : Nat → Nat) (es : Nat → ε)
    (hft : 0 < cb0.failure_threshold)
    (hs : cb0.state = .Closed) (hfc : cb0.failure_count = 0) :
    (∀ k, k < cb0.failure_threshold → (failCalls cb0 ts es k).state = .Closed) ∧
    (failCalls cb0 ts es cb0.failure_threshold).state = .Open ∧
    (∀ k, k < cb0.failure_threshold →
      ((failCalls cb0 ts es k).call (ts k) (Except.error (es k) : Except ε Unit)).result
        = .error (.OperationError (es k))) := by
  have base := failCalls_closed cb0 ts es hs hfc
  refine ⟨fun k hk => (base k hk).1, ?_, ?_⟩
  · obtain ⟨m, hm⟩ : ∃ m, cb0.failure_threshold = m + 1 :=
      ⟨cb0.failure_threshold - 1, (Nat.succ_pred_eq_of_pos hft).symm⟩
    obtain ⟨h1, h2, h3⟩ := base m (by omega)
    have hge : (failCalls cb0 ts es m).failure_threshold
        ≤ (failCalls cb0 ts es m).failure_count + 1 := by rw [h2, h3]; omega
    rw [hm, failCalls, call_closed_err_reach (ts m) (es m) h1 hge]
  · intro k hk
    obtain ⟨h1, h2, h3⟩ := base k hk
    by_cases hreach : (failCalls cb0 ts es k).failure_threshold
        ≤ (failCalls cb0 ts es k).failure_count + 1
    · rw [call_closed_err_reach (ts k) (es k) h1 hreach]
    · rw [call_closed_err_below (ts k) (es k) h1 (by omega)]

theorem c1_witness :
    ((∀ k, k < (CircuitBreaker.new 2 5).failure_threshold →
        (failCalls (CircuitBreaker.new 2 5) (fun j => j) (fun _ => "boom") k).state
          = .Closed) ∧
     (failCalls (CircuitBreaker.new 2 5) (fun j => j) (fun _ => "boom")
        (CircuitBreaker.new 2 5).failure_threshold).state = .Open ∧
     (∀ k, k < (CircuitBreaker.new 2 5).failure_threshold →
        ((failCalls (CircuitBreaker.new 2 5) (fun j => j) (fun _ => "boom") k).call
            ((fun j => j) k) (Except.error ((fun _ : Nat => "boom") k) : Except String Unit)).result
          = .error (.OperationError "boom"))) :=
  c1_threshold_failures_open (CircuitBreaker.new 2 5) (fun j => j) (fun _ => "boom")
    (by decide) rfl rfl

/-- C2: while the breaker is `Open` with a recorded `last_failure_time` and
the elapsed time is still below `reset_timeout`, `call` returns
`CircuitOpen`, does not invoke the wrapped operation, and leaves every
field of the breaker unchanged. -/
theorem c2_open_unelapsed_rejects {ε α : Type} (cb : CircuitBreaker) (now t : Nat)
    (op : Except ε α) (hs : cb.state = .Open) (hl : cb.last_failure_time = some t)
    (ht : now - t < cb.reset_timeout) :
    cb.call now op = { breaker := cb, result := .error .CircuitOpen, invoked := false } :=
  call_reject op (openPhase_reject hs hl ht)

theorem c2_witness :
    (⟨.Open, 1, 1, 2, 0, 5, some 0⟩ : CircuitBreaker).call 3 (Except.ok 42 : Except String Nat)
      = { breaker := ⟨.Open, 1, 1, 2, 0, 5, some 0⟩,
          result := .error .CircuitOpen, invoked := false } :=
  c2_open_unelapsed_rejects _ 3 0 _ rfl rfl (by decide)

/-- C3: a call that observes `Open` with the reset timeout elapsed
transitions the breaker to `HalfOpen` with `success_count` reset to 0
(that is what the Open-phase of `call` hands to the execution phase), and
the wrapped operation is invoked. -/
theorem c3_open_elapsed_probes {ε α : Type} (cb : CircuitBreaker) (now t : Nat)
    (op : Except ε α) (hs : cb.state = .Open) (hl : cb.last_failure_time = some t)
    (ht : cb.reset_timeout ≤ now - t) :
    cb.openPhase now = .inr { cb with state := .HalfOpen, success_count := 0 } ∧
    (cb.call now op).invoked = true := by
  have h := openPhase_probe hs hl ht
  exact ⟨h, by rw [call_proceed op h]⟩

theorem c3_witness :
    (⟨.Open, 1, 1, 2, 3, 5, some 0⟩ : CircuitBreaker).openPhase 6
        = .inr (⟨.HalfOpen, 1, 1, 2, 0, 5, some 0⟩ : CircuitBreaker) ∧
    ((⟨.Open, 1, 1, 2, 3, 5, some 0⟩ : CircuitBreaker).call 6
        (Except.ok 0 : Except String Nat)).invoked = true :=
  c3_open_elapsed_probes _ 6 0 _ rfl rfl (by decide)

theorem succCalls_halfopen_inv {α : Type} (cb0 : CircuitBreaker) (ts : Nat → Nat)
    (vs : Nat → α) (hs : cb0.state = .HalfOpen) :
    ∀ k,
      ((succCalls cb0 ts vs k).state = .HalfOpen ∧
        (succCalls cb0 ts vs k).success_count = cb0.success_count + k ∧
        (succCalls cb0 ts vs k).success_threshold = cb0.success_threshold ∧
        (k = 0 ∨ cb0.success_count + k < cb0.success_threshold)) ∨
      ((succCalls cb0 ts vs k).state = .Closed ∧
        (succCalls cb0 ts vs k).failure_count = 0 ∧
        (succCalls cb0 ts vs k).success_count = 0) := by
  intro k
  induction k with
  | zero => exact Or.inl ⟨hs, rfl, rfl, Or.inl rfl⟩
  | succ k ih =>
      rcases ih with ⟨h1, h2, h3, _⟩ | ⟨h1, h2, h3⟩
      · by_cases hreach : (succCalls cb0 ts vs k).success_threshold
            ≤ (succCalls cb0 ts vs k).success_count + 1
        · right
          rw [succCalls, call_halfopen_ok_reach (ts k) (vs k) h1 hreach]
          exact ⟨rfl, rfl, rfl⟩
        · left
          have hb : cb0.success_count + (k + 1) < cb0.success_threshold := by
            rw [h2, h3] at hreach; omega
          rw [succCalls, call_halfopen_ok_below (ts k) (vs k) h1 (Nat.not_le.mp hreach)]
          exact ⟨h1, by simp [h2, Nat.add_assoc], h3, Or.inr hb⟩
      · right
        rw [succCalls, call_closed_ok (ts k) (vs k) h1]
        exact ⟨h1, rfl, h3⟩

/-- C4: from any breaker in `HalfOpen`, `success_threshold` consecutive
successful calls leave the breaker `Closed` with both `failure_count` and
`success_count` reset to 0, while a single failing call from any `HalfOpen`
breaker (whatever its accumulated `success_count`) moves the state to
`Open` and records `last_failure_time` as the instant of that call. -/
theorem c4_halfopen_transitions {ε α : Type} (cb0 : CircuitBreaker)
    (ts : Nat → Nat) (vs : Nat → α)
    (hs : cb0.state = .HalfOpen) (hst : 0 < cb0.success_threshold) :
    ((succCalls cb0 ts vs cb0.success_threshold).state = .Closed ∧
     (succCalls cb0 ts vs cb0.success_threshold).failure_count = 0 ∧
     (succCalls cb0 ts vs cb0.success_threshold).success_count = 0) ∧
    (∀ (cb : CircuitBreaker) (now : Nat) (e : ε), cb.state = .HalfOpen →
      (cb.call now (Except.error e : Except ε α)).breaker.state = .Open ∧
      (cb.call now (Except.error e : Except ε α)).breaker.last_failure_time = some now) := by
  constructor
  · rcases succCalls_halfopen_inv cb0 ts vs hs cb0.success_threshold with
      ⟨_, _, _, h4⟩ | hclosed
    · rcases h4 with h4 | h4 <;> omega
    · exact hclosed
  · intro cb now e hho
    rw [call_halfopen_err now e hho]
    exact ⟨rfl, rfl⟩

theorem c4_witness :
    (((succCalls (⟨.HalfOpen, 3, 2, 2, 0, 5, some 0⟩ : CircuitBreaker)
          (fun j => j) (fun _ => 7) 2).state = .Closed ∧
      (succCalls (⟨.HalfOpen, 3, 2, 2, 0, 5, some 0⟩ : CircuitBreaker)
          (fun j => j) (fun _ => 7) 2).failure_count = 0 ∧
      (succCalls (⟨.HalfOpen, 3, 2, 2, 0, 5, some 0⟩ : CircuitBreaker)
          (fun j => j) (fun _ => 7) 2).success_count = 0) ∧
     (∀ (cb : CircuitBreaker) (now : Nat) (e : String), cb.state = .HalfOpen →
       (cb.call now (Except.error e : Except String Nat)).breaker.state = .Open ∧
       (cb.call now (Except.error e : Except String Nat)).breaker.last_failure_time
         = some now)) :=
  c4_halfopen_transitions (⟨.HalfOpen, 3, 2, 2, 0, 5, some 0⟩ : CircuitBreaker)
    (fun j => j) (fun _ => 7) rfl (by decide)

theorem call_open_probe {ε α : Type} {cb : CircuitBreaker} {t now : Nat} (op : Except ε α)
    (hs : cb.state = .Open) (hl : cb.last_failure_time = some t)
    (ht : cb.reset_timeout ≤ now - t) :
    cb.call now op
      = ({ cb with state := .HalfOpen, success_count := 0 } : CircuitBreaker).call now op := by
  rw [call_proceed op (openPhase_probe hs hl ht),
      call_proceed op (openPhase_skip (by simp) now)]

theorem call_halfopen_inv {ε α : Type} {cb : CircuitBreaker} (hs : cb.state = .HalfOpen)
    (now : Nat) (op : Except ε α) :
    (cb.call now op).breaker.state = .Open →
      (cb.call now op).breaker.last_failure_time.isSome = true := by
  rcases op with e | v
  · rw [call_halfopen_err now e hs]; intro _; rfl
  · by_cases hr : cb.success_threshold ≤ cb.success_count + 1
    · rw [call_halfopen_ok_reach now v hs hr]
      intro hopen; simp at hopen
    · rw [call_halfopen_ok_below now v hs (Nat.not_le.mp hr)]
      intro hopen; simp [hs] at hopen

theorem call_inv {ε α : Type} {cb : CircuitBreaker}
    (h : cb.state = .Open → cb.last_failure_time.isSome = true)
    (now : Nat) (op : Except ε α) :
    (cb.call now op).breaker.state = .Open →
      (cb.call now op).breaker.last_failure_time.isSome = true := by
  rcases hso : cb.state with _ | _ | _
  · rcases op with e | v
    · by_cases hr : cb.failure_threshold ≤ cb.failure_count + 1
      · rw [call_closed_err_reach now e hso hr]; intro _; rfl
      · rw [call_closed_err_below now e hso (Nat.not_le.mp hr)]
        intro hopen; simp [hso] at hopen
    · rw [call_closed_ok now v hso]
      intro hopen; simp [hso] at hopen
  · have hsome := h hso
    rcases hl : cb.last_failure_time with _ | t
    · rw [hl] at hsome; simp at hsome
    · by_cases ht : cb.reset_timeout ≤ now - t
      · rw [call_open_probe op hso hl ht]
        exact call_halfopen_inv rfl now op
      · rw [call_reject op (openPhase_reject hso hl (Nat.not_le.mp ht))]
        intro _; exact hsome
  · exact call_halfopen_inv hso now op

/-- C10: along every sequence of `call` and `reset` operations from a
constructed breaker, whenever the state is `Open` the breaker holds a
recorded `last_failure_time`; consequently a call made in `Open` either
returns `CircuitOpen` without invoking the operation and without touching
the breaker, or first transitions the breaker to `HalfOpen` (the operation
is then invoked) — the operation is never invoked while the state remains
`Open`. -/
theorem c10_open_invariant (ε α : Type) (cb : CircuitBreaker) (h : Reachable cb) :
    (cb.state = .Open → cb.last_failure_time.isSome = true) ∧
    (cb.state = .Open → ∀ (now : Nat) (op : Except ε α),
      cb.call now op = { breaker := cb, result := .error .CircuitOpen, invoked := false } ∨
      (cb.openPhase now = .inr { cb with state := .HalfOpen, success_count := 0 } ∧
       (cb.call now op).invoked = true)) := by
  have inv : ∀ {cb' : CircuitBreaker}, Reachable cb' →
      (cb'.state = .Open → cb'.last_failure_time.isSome = true) := by
    intro cb' hr
    induction hr with
    | new ft rt => intro hopen; simp [CircuitBreaker.new] at hopen
    | withThreshold st _ ih => exact ih
    | call now op _ ih => exact call_inv ih now op
    | reset _ ih => intro hopen; simp [CircuitBreaker.reset] at hopen
  refine ⟨inv h, ?_⟩
  intro hopen now op
  have hsome := inv h hopen
  rcases hl : cb.last_failure_time with _ | t
  · rw [hl] at hsome; simp at hsome
  · by_cases ht : cb.reset_timeout ≤ now - t
    · right
      have hp := openPhase_probe hopen hl ht
      rw [hl] at hp
      exact ⟨hp, by rw [call_proceed op hp]⟩
    · left
      exact call_reject op (openPhase_reject hopen hl (Nat.not_le.mp ht))

theorem c10_witness :
    (((CircuitBreaker.new 1 5).call 0 (Except.error () : Except Unit Unit)).breaker.last_failure_time.isSome
      = true) :=
  (c10_open_invariant Unit Unit _
      (Reachable.call 0 (Except.error ()) (Reachable.new 1 5))).1 (by decide)

/-! ## Saga lemmas -/

theorem compensateSteps_events {C E : Type} (l : List (Nat × SagaStep C E)) (ctx : C) :
    (compensateSteps l ctx).1 = l.map (fun p => SagaEvent.comp p.1) := by
  induction l generalizing ctx with
  | nil => rfl
  | cons p rest ih =>
      obtain ⟨j, s⟩ := p
      simp [compensateSteps, ih]

theorem runLoop_allSucceed {C E : Type} (steps : List (SagaStep C E)) (ctx : C)
    (h : allSucceed steps ctx) (i : Nat) (ex : List (Nat × SagaStep C E)) :
    runLoop steps i ex ctx
      = ((List.range' i steps.length).map SagaEvent.exec,
         Except.ok (finalContext (E := E) steps ctx)) := by
  induction steps generalizing ctx i ex with
  | nil => simp [runLoop, finalContext]
  | cons s rest ih =>
      simp only [allSucceed] at h
      obtain ⟨h1, h2⟩ := h
      rcases hx : s.execute ctx with ⟨ctx', r⟩
      rw [hx] at h1 h2
      simp only at h1 h2
      subst h1
      simp only [runLoop, hx]
      rw [ih ctx' h2 (i + 1) (ex ++ [(i, s)])]
      simp [finalContext, hx, List.length_cons, List.range'_succ]

/-- C6: when every step's `execute` succeeds, `run` invokes `execute`
exactly once per step in insertion order (event trace
`[exec 0, …, exec (n-1)]`, with no `comp` event at all) and returns `Ok`
with the final context. -/
theorem c6_all_success_no_compensation {C E : Type} (steps : List (SagaStep C E))
    (ctx : C) (h : allSucceed steps ctx) :
    SagaOrchestrator.run ⟨steps⟩ ctx
      = ((List.range steps.length).map SagaEvent.exec,
         Except.ok (finalContext (E := E) steps ctx)) := by
  rw [SagaOrchestrator.run, runLoop_allSucceed steps ctx h 0 [], List.range_eq_range']

theorem runLoop_firstFail {C E : Type} (pre post : List (SagaStep C E))
    (s : SagaStep C E) (ctx : C) (e : E) (hpre : allSucceed pre ctx)
    (hfail : (s.execute (finalContext (E := E) pre ctx)).2 = some e)
    (i : Nat) (ex : List (Nat × SagaStep C E)) :
    runLoop (pre ++ s :: post) i ex ctx
      = ((List.range' i (pre.length + 1)).map SagaEvent.exec
          ++ ((ex.map Prod.fst ++ List.range' i pre.length).reverse.map SagaEvent.comp),
         Except.error e) := by
  induction pre generalizing ctx i ex with
  | nil =>
      simp only [finalContext] at hfail
      rcases hx : s.execute ctx with ⟨ctx', r⟩
      rw [hx] at hfail
      simp only at hfail
      subst hfail
      simp [runLoop, hx, compensateSteps_events, List.range'_succ, List.range']
  | cons p pre' ih =>
      simp only [allSucceed] at hpre
      obtain ⟨h1, h2⟩ := hpre
      simp only [finalContext] at hfail
      rcases hx : p.execute ctx with ⟨ctx', r⟩
      rw [hx] at h1 h2 hfail
      simp only at h1 h2 hfail
      subst h1
      simp only [List.cons_append, runLoop, hx, List.append_eq]
      rw [ih ctx' h2 hfail (i + 1) (ex ++ [(i, p)])]
      simp [List.length_cons, List.range'_succ, List.append_assoc]

/-- C5: when step `i` is the first whose `execute` fails (`pre` are the
`i` earlier, succeeding steps), `run` executes steps `0…i` in order and
none after `i`, compensates exactly the steps `0…i-1` in strict reverse
order `i-1,…,0` (never the failing step or a later one), and returns the
failing step's own error — event trace
`[exec 0,…,exec i, comp (i-1),…,comp 0]`. -/
theorem c5_first_failure_compensates_reverse {C E : Type}
    (pre post : List (SagaStep C E)) (s : SagaStep C E) (ctx : C) (e : E)
    (hpre : allSucceed pre ctx)
    (hfail : (s.execute (finalContext (E := E) pre ctx)).2 = some e) :
    SagaOrchestrator.run ⟨pre ++ s :: post⟩ ctx
      = ((List.range (pre.length + 1)).map SagaEvent.exec
          ++ ((List.range pre.length).reverse.map SagaEvent.comp),
         Except.error e) := by
  rw [SagaOrchestrator.run, runLoop_firstFail pre post s ctx e hpre hfail 0 []]
  simp [List.range_eq_range']

/-- Concrete saga step over a `Nat` context that always succeeds. -/
def stepInc : SagaStep Nat String where
  execute := fun c => (c + 1, none)
  compensate := fun c => c + 10

/-- Concrete saga step over a `Nat` context that always fails. -/
def stepBoom : SagaStep Nat String where
  execute := fun c => (c, some "boom")
  compensate := fun c => c

theorem c5_witness :
    SagaOrchestrator.run ⟨[stepInc, stepBoom, stepInc]⟩ 0
      = ([SagaEvent.exec 0, SagaEvent.exec 1, SagaEvent.comp 0], Except.error "boom") := by
  have h := c5_first_failure_compensates_reverse [stepInc] [stepInc] stepBoom 0 "boom"
    ⟨rfl, trivial⟩ rfl
  simpa using h

theorem c6_witness :
    SagaOrchestrator.run ⟨[stepInc, stepInc]⟩ 0
      = ([SagaEvent.exec 0, SagaEvent.exec 1], Except.ok 2) := by
  have h := c6_all_success_no_compensation [stepInc, stepInc] 0 ⟨rfl, rfl, trivial⟩
  simpa [finalContext, stepInc] using h

/-! ## Rate limiter lemmas -/

theorem is_allowed_length (history : List Int) (now : Int) (limit window_secs : Nat)
    (h : history.length ≤ limit) :
    (InMemoryRateLimiter.is_allowed history now limit window_secs).1.length ≤ limit := by
  have hf := List.length_filter_le
    (fun ts => decide (now - (window_secs * 1000 : Nat) < ts)) history
  simp only [InMemoryRateLimiter.is_allowed]
  split
  · exact le_trans hf h
  · next hc =>
      simp only [List.length_append, List.length_cons, List.length_nil]
      omega

theorem runChecks_length (times : List Int) (limit window_secs : Nat) :
    (runChecks times limit window_secs).1.length ≤ limit := by
  suffices h : ∀ acc : List Int × List Bool, acc.1.length ≤ limit →
      (times.foldl (checkStep limit window_secs) acc).1.length ≤ limit from
    h ([], []) (by simp)
  induction times with
  | nil => intro acc hacc; exact hacc
  | cons t rest ih =>
      intro acc hacc
      exact ih _ (is_allowed_length acc.1 t limit window_secs hacc)

/-- C7: after every sequence of uncontended in-memory checks for one key
ending with a check at instant `now`, the stored timestamps lying within
`[now - window, now)` number at most `limit`; and in the concrete
`limit = 3, window = 10 s` scenario, three calls inside the window are
allowed, a fourth inside it is denied, and once the oldest timestamp ages
past the window a new call is allowed again. -/
theorem c7_window_count_bounded (times : List Int) (now : Int)
    (limit window_secs : Nat) :
    ((runChecks (times ++ [now]) limit window_secs).1.countP
        (fun ts => decide (now - (window_secs * 1000 : Nat) ≤ ts) && decide (ts < now)))
      ≤ limit ∧
    runChecks [0, 1000, 2000, 3000, 10500] 3 10
      = ([1000, 2000, 10500], [true, true, true, false, true]) := by
  constructor
  · exact le_trans (List.countP_le_length _) (runChecks_length _ limit window_secs)
  · decide

/-- C8: whenever the connection to Redis cannot be established or the
command pipeline returns an error, `is_allowed` returns `true` (fail open)
for every key state, limit and window; connectivity failures never surface
to the caller as a denial (the return type carries no error at all). -/
theorem c8_fail_open (conn pipe : Except String Unit) (zset : RedisZSet) (now : Int)
    (limit window_secs : Nat)
    (h : (∃ m, conn = .error m) ∨ (∃ m, pipe = .error m)) :
    (RedisRateLimiter.is_allowed conn pipe zset now limit window_secs).2 = true := by
  unfold RedisRateLimiter.is_allowed
  rcases conn with m | u
  · rfl
  · rcases pipe with m | u'
    · rfl
    · rcases h with ⟨m, hm⟩ | ⟨m, hm⟩ <;> cases hm

theorem c8_witness :
    (RedisRateLimiter.is_allowed (.error "connection refused") (.ok ())
        ⟨[], none⟩ 0 3 10).2 = true :=
  c8_fail_open (.error "connection refused") (.ok ()) ⟨[], none⟩ 0 3 10
    (Or.inl ⟨"connection refused", rfl⟩)

/-- C9 as frozen is false: it asserts that a timestamp equal to
`now - window` is retained and counted.  With `history = [0]`,
`now = 10000` ms, `window = 10` s and `limit = 1`, the stored timestamp 0
equals `now - window`, so the claim predicts it survives the purge and the
check is denied; both backends instead remove it and allow the call. -/
theorem c9_counterexample :
    InMemoryRateLimiter.is_allowed [0] 10000 1 10 = ([10000], true) ∧
    (0 : Int) ∉ (InMemoryRateLimiter.is_allowed [0] 10000 1 10).1 ∧
    RedisRateLimiter.is_allowed (.ok ()) (.ok ()) ⟨[0], none⟩ 10000 1 10
      = (⟨[10000], some 10⟩, true) := by
  decide

theorem filter_countP_ge {ws : Int} (l : List Int) :
    ((l.filter fun ts => decide (ws < ts)).countP fun ts => decide (ws ≤ ts))
      = (l.filter fun ts => decide (ws < ts)).length := by
  rw [List.countP_eq_length]
  intro a ha
  have := List.of_mem_filter ha
  simp only [decide_eq_true_eq] at this ⊢
  exact le_of_lt this

/-- C9 amended: on each check both backends remove exactly the timestamps
at or older than `now - window` (one equal to `now - window` is removed
and not counted), deny exactly when at least `limit` timestamps remain,
and otherwise append the current timestamp and allow — the Redis backend
additionally refreshing the set's expiry to `window` seconds on every
allowed call. -/
theorem c9_purge_count_insert (history : List Int) (zset : RedisZSet) (now : Int)
    (limit window_secs : Nat) :
    ((InMemoryRateLimiter.is_allowed history now limit window_secs).2 = false ↔
      limit ≤ (history.filter
        (fun ts => decide (now - (window_secs * 1000 : Nat) < ts))).length) ∧
    ((InMemoryRateLimiter.is_allowed history now limit window_secs).2 = false →
      (InMemoryRateLimiter.is_allowed history now limit window_secs).1
        = history.filter (fun ts => decide (now - (window_secs * 1000 : Nat) < ts))) ∧
    ((InMemoryRateLimiter.is_allowed history now limit window_secs).2 = true →
      (InMemoryRateLimiter.is_allowed history now limit window_secs).1
        = history.filter (fun ts => decide (now - (window_secs * 1000 : Nat) < ts))
            ++ [now]) ∧
    (∀ ts ∈ (InMemoryRateLimiter.is_allowed history now limit window_secs).1,
      ts = now ∨ now - (window_secs * 1000 : Nat) < ts) ∧
    ((RedisRateLimiter.is_allowed (.ok ()) (.ok ()) zset now limit window_secs).2 = false ↔
      limit ≤ (zset.entries.filter
        (fun ts => decide (now - (window_secs * 1000 : Nat) < ts))).length) ∧
    ((RedisRateLimiter.is_allowed (.ok ()) (.ok ()) zset now limit window_secs).2 = false →
      (RedisRateLimiter.is_allowed (.ok ()) (.ok ()) zset now limit window_secs).1.entries
        = zset.entries.filter (fun ts => decide (now - (window_secs * 1000 : Nat) < ts))) ∧
    ((RedisRateLimiter.is_allowed (.ok ()) (.ok ()) zset now limit window_secs).2 = true →
      (RedisRateLimiter.is_allowed (.ok ()) (.ok ()) zset now limit window_secs).1.entries
        = zset.entries.filter (fun ts => decide (now - (window_secs * 1000 : Nat) < ts))
          ++ [now] ∧
      (RedisRateLimiter.is_allowed (.ok ()) (.ok ()) zset now limit window_secs).1.expiry
        = some window_secs) := by
  simp only [InMemoryRateLimiter.is_allowed, RedisRateLimiter.is_allowed]
  simp only [filter_countP_ge]
  constructor
  · split <;> next hc => push_cast at hc; simp [hc]
  constructor
  · split <;> next hc => simp [hc]
  constructor
  · split <;> next hc => simp [hc]
  constructor
  · intro ts hts
    split at hts
    · exact Or.inr (by simpa using List.of_mem_filter hts)
    · rcases List.mem_append.mp hts with hmem | hmem
      · exact Or.inr (by simpa using List.of_mem_filter hmem)
      · exact Or.inl (by simpa using hmem)
  constructor
  · split <;> next hc => push_cast at hc; simp [hc]
  constructor
  · split <;> next hc => simp [hc]
  · split <;> next hc => simp [hc]

end LanaiInfra
